import Mathlib

/-!
# Verification of the DDPM training/sampling script (`experiment.py`)

The repository is a single script that wires a `DenoiseDiffusion` process
(schedule, forward corruption, loss, reverse step — an external library,
modelled here from the specification) into a training and sampling loop.
The orchestration (the `Configs` class with its `sample`, `train`, `run`
methods and the `main` entry point) is embedded directly from the source:
imperative loops become event traces or pure recursions, random draws
become explicit parameters, and floating-point tensors become rational
numbers indexed by a finite type.
-/

namespace DDPM

/-! ## Noise schedule (modelled from the spec, §4.1)

`DenoiseDiffusion` precomputes, from `T` variance values `β_t ∈ (0,1)`,
the values `α_t = 1 - β_t` and the cumulative products `ᾱ_t = Π_{s≤t} α_s`.
-/

/-- `α_t = 1 - β_t`. Modelled from the spec: the schedule construction of
the diffusion library is not part of the repository source. -/
def alpha (beta : ℕ → ℚ) (t : ℕ) : ℚ := 1 - beta t

/-- `ᾱ_t = α_0 · α_1 · ⋯ · α_t` (cumulative product of the `α`).
Modelled from the spec: §4.1. -/
def alphaBar (beta : ℕ → ℚ) : ℕ → ℚ
  | 0 => alpha beta 0
  | t + 1 => alphaBar beta t * alpha beta (t + 1)

/-- A variance schedule is valid when every `β_t` used lies in `(0,1)`. -/
def ValidBetas (beta : ℕ → ℚ) (T : ℕ) : Prop :=
  ∀ t, t < T → 0 < beta t ∧ beta t < 1

/-! ## Single reverse step `p_sample` (modelled from the spec, §4.4)

The reverse step uses three per-timestep scalar coefficients derived from
the schedule: `1/√α_t`, `β_t/√(1-ᾱ_t)` and `√β̃_t`.  Square roots are not
rational, so the coefficients are carried abstractly; the structure of the
step — posterior mean, plus a noise term exactly when `t > 0` — is what
the claims are about.  Tensors are rational-valued families over an
arbitrary index type `ι` (flattened `(C,H,W)` positions). -/

/-- The reverse-step coefficients of the schedule.  Modelled from the
spec: `invSqrtAlpha t = 1/√α_t`, `epsCoef t = β_t/√(1-ᾱ_t)`,
`sigma t = √β̃_t` (square root of the posterior variance). -/
structure RevSched where
  invSqrtAlpha : ℕ → ℚ
  epsCoef : ℕ → ℚ
  sigma : ℕ → ℚ

/-- Posterior mean `μ_t = (1/√α_t) · (xₜ - (β_t/√(1-ᾱ_t)) · ε̂)`.
Modelled from the spec: §4.4 step 2. -/
def posteriorMean {ι : Type} (s : RevSched) (x epsHat : ι → ℚ) (t : ℕ) :
    ι → ℚ :=
  fun i => s.invSqrtAlpha t * (x i - s.epsCoef t * epsHat i)

/-- One reverse step.  Modelled from the spec: §4.4 — given `xₜ`, the
predictor output `ε̂` and an explicit noise draw `z`, return
`μ_t + √β̃_t · z` when `t > 0`, and `μ_t` alone when `t = 0`. -/
def p_sample {ι : Type} (s : RevSched) (x epsHat : ι → ℚ) (t : ℕ)
    (z : ι → ℚ) : ι → ℚ :=
  if t > 0 then fun i => posteriorMean s x epsHat t i + s.sigma t * z i
  else posteriorMean s x epsHat t

/-! ## Forward corruption and training loss (modelled from the spec,
§4.2–§4.3)

Random draws (the per-sample timesteps and the Gaussian noise) are
explicit parameters; the noise predictor is an arbitrary function of the
corrupted batch and the timestep batch. -/

/-- The forward-process coefficients `√ᾱ_t` and `√(1-ᾱ_t)`.  Modelled
from the spec: §4.1. -/
structure FwdSched where
  sqrtAlphaBar : ℕ → ℚ
  sqrtOneMinusAlphaBar : ℕ → ℚ

/-- Forward corruption `xₜ = √ᾱ_t · x₀ + √(1-ᾱ_t) · ε`.  Modelled from
the spec: §4.2. -/
def q_sample {ι : Type} (s : FwdSched) (x0 : ι → ℚ) (t : ℕ)
    (eps : ι → ℚ) : ι → ℚ :=
  fun i => s.sqrtAlphaBar t * x0 i + s.sqrtOneMinusAlphaBar t * eps i

/-- Mean squared error between two families, a single scalar: the mean of
the squared differences over all indices. -/
def mse {κ : Type} [Fintype κ] (a b : κ → ℚ) : ℚ :=
  (∑ i, (a i - b i) ^ 2) / (Fintype.card κ : ℚ)

/-- Training loss.  Modelled from the spec: §4.3 — corrupt each sample of
the batch to its drawn timestep with its drawn noise, call the predictor
on the corrupted batch, and return the mean squared error between the
injected noise and the prediction (mean over the batch and all element
positions).  `B` indexes the batch, `ι` the element positions; `ts` and
`eps` are the random draws made explicit. -/
def loss {B ι : Type} [Fintype B] [Fintype ι] (s : FwdSched)
    (x0 : B → ι → ℚ) (ts : B → ℕ) (eps : B → ι → ℚ)
    (pred : (B → ι → ℚ) → (B → ℕ) → (B → ι → ℚ)) : ℚ :=
  let xt : B → ι → ℚ := fun b => q_sample s (x0 b) (ts b) (eps b)
  let epsTheta := pred xt ts
  mse (fun p : B × ι => eps p.1 p.2) (fun p : B × ι => epsTheta p.1 p.2)

/-! ## The `Configs` class (`experiment.py`, lines 17–61)

Only the scalar configuration fields the claims touch are carried. -/

/-- The configuration fields of the `Configs` class with their hardcoded
defaults (`experiment.py` lines 32–54; note `epochs: int = 1_0`). -/
structure Configs where
  image_channels : ℕ := 3
  image_size : ℕ := 32
  n_channels : ℕ := 64
  n_steps : ℕ := 1000
  batch_size : ℕ := 64
  n_samples : ℕ := 16
  epochs : ℕ := 10
deriving DecidableEq, Repr

/-! ## Event traces of the imperative methods

Each method of `Configs` is embedded as the sequence of externally visible
operations it performs, in program order.  `grad` records whether the
operation runs inside the `torch.no_grad()` block. -/

/-- One observable operation of the script. -/
inductive Ev where
  /-- `os.makedirs(save_dir)` for the timestamped directory (line 107). -/
  | mkdir (dir : String)
  /-- `torch.randn([...])`, a standard-normal draw of the given shape
  (line 111). -/
  | randn (shape : List ℕ) (grad : Bool)
  /-- `self.diffusion.p_sample(x, tBatch)` with scalar timestep `t`
  (line 119). -/
  | pSampleCall (t : ℕ) (tBatch : List ℕ) (grad : Bool)
  /-- `tracker.save("sample", x)` (line 122). -/
  | trackSample (grad : Bool)
  /-- `img.save(file_path)` for sample index `i` (lines 128–134). -/
  | saveImage (idx : ℕ) (name : String) (mode : String)
  /-- `tracker.add_global_step()` (line 146). -/
  | addGlobalStep (b : ℕ)
  /-- `self.optimizer.zero_grad()` (line 150). -/
  | zeroGrad (b : ℕ)
  /-- `self.diffusion.loss(data)` (line 152). -/
  | lossCompute (b : ℕ)
  /-- `loss.backward()` (line 154). -/
  | backward (b : ℕ)
  /-- `self.optimizer.step()` (line 156). -/
  | optStep (b : ℕ)
  /-- `tracker.save("loss", loss)` (line 158). -/
  | trackLoss (b : ℕ)
  /-- `tracker.new_line()` (line 170). -/
  | newLine
  /-- the `self.sample()` call of `run` (line 172), atomic at this level. -/
  | sampleProc
  /-- `experiment.save_checkpoint()` (line 175). -/
  | saveCheckpoint
deriving DecidableEq, Repr

/-- Trace of `Configs.sample` (lines 95–134): create the timestamped
directory, then inside `torch.no_grad()` draw `x_T` standard normal of
shape `(n_samples, image_channels, image_size, image_size)`, run
`for t_ in range(n_steps)` with `t = n_steps - t_ - 1` passing
`x.new_full((n_samples,), t)` to `p_sample`, log the sample, and save
the scaled images `image_0.jpg … image_{n_samples-1}.jpg` in RGB mode.
`ts` is the runtime timestamp string. -/
def sampleEvents (cfg : Configs) (ts : String) : List Ev :=
  [Ev.mkdir ("./mnt/data/images_" ++ ts ++ "/"),
   Ev.randn [cfg.n_samples, cfg.image_channels, cfg.image_size,
             cfg.image_size] false]
  ++ (List.range cfg.n_steps).map (fun t_ =>
       Ev.pSampleCall (cfg.n_steps - t_ - 1)
         (List.replicate cfg.n_samples (cfg.n_steps - t_ - 1)) false)
  ++ [Ev.trackSample false]
  ++ (List.range cfg.n_samples).map (fun i =>
       Ev.saveImage i ("image_" ++ toString i ++ ".jpg") "RGB")

/-- The value assigned to `x` after the reverse loop of `Configs.sample`
(lines 115–119): fold the reverse step over `t_ = 0, …, n_steps-1` with
`t = n_steps - t_ - 1`, reassigning `x` each iteration.  `step x t` is
one `p_sample` call. -/
def sampleLoop {α : Type} (step : α → ℕ → α) (nSteps : ℕ) (xT : α) : α :=
  (List.range nSteps).foldl (fun x t_ => step x (nSteps - t_ - 1)) xT

/-- Trace of `Configs.train` (lines 138–158) over `nB` batches, in batch
order: per batch, increment the global step, zero the gradients, compute
the loss, backpropagate, apply one optimizer step, record the loss. -/
def trainEvents : ℕ → List Ev
  | 0 => []
  | b + 1 =>
      trainEvents b ++
        [Ev.addGlobalStep b, Ev.zeroGrad b, Ev.lossCompute b,
         Ev.backward b, Ev.optStep b, Ev.trackLoss b]

/-- Trace of `Configs.run` (lines 160–175) for `e` epochs over `nB`
batches per epoch: per epoch, train over all batches, print a new line,
sample once, save a checkpoint. -/
def runEvents (nB : ℕ) : ℕ → List Ev
  | 0 => []
  | e + 1 =>
      runEvents nB e ++ trainEvents nB ++
        [Ev.newLine, Ev.sampleProc, Ev.saveCheckpoint]

/-! ## Configuration override in `main` (`experiment.py`, lines 179–200)

`experiment.configs(configs, {...})` applies the dictionary on top of the
class defaults. -/

/-- The override dictionary passed by `main` (lines 187–190). -/
def mainOverrides : List (String × ℕ) := [("image_channels", 3), ("epochs", 100)]

/-- Modelled from the spec: `experiment.configs` (the labml library, not
part of the repository source) sets each named configuration field to the
dictionary value, silently overriding the class default. -/
def applyOverrides (c : Configs) (ov : List (String × ℕ)) : Configs :=
  ov.foldl (fun c kv =>
    if kv.1 = "epochs" then { c with epochs := kv.2 }
    else if kv.1 = "image_channels" then { c with image_channels := kv.2 }
    else c) c

/-- The effective configuration of a run of `main`: the class defaults
with the override dictionary applied. -/
def mainConfigs : Configs := applyOverrides {} mainOverrides

/-! ## Pixel post-processing (`experiment.py`, line 125)

`((x + 1) * 127.5).byte()`: scale, truncate toward zero, cast to an
unsigned 8-bit integer (wrap modulo 256). -/

/-- Truncation of a rational toward zero (the float-to-integer cast). -/
def ratTrunc (q : ℚ) : ℤ := Int.tdiv q.num q.den

/-- The per-pixel scaling of line 125: `(v + 1) * 127.5` truncated and
wrapped into an unsigned byte. -/
def toByte (v : ℚ) : ℤ := ratTrunc ((v + 1) * (255 / 2)) % 256

/-! ## Trace projections and expected patterns -/

/-- The scalar timestep of a reverse-step call, when the event is one. -/
def pSampleT : Ev → Option ℕ
  | Ev.pSampleCall t _ _ => some t
  | _ => none

/-- The sequence of scalar timesteps of the reverse-step calls made by
one `sample()` invocation, in call order. -/
def pSampleTimesteps (cfg : Configs) (ts : String) : List ℕ :=
  (sampleEvents cfg ts).filterMap pSampleT

/-- Whether an event is a loss computation or an optimizer step. -/
def isLossOrStep : Ev → Bool
  | Ev.lossCompute _ => true
  | Ev.optStep _ => true
  | _ => false

/-- The alternation expected of a training epoch over `nB` batches: one
loss computation immediately followed by one optimizer step, per batch. -/
def lossStepPattern : ℕ → List Ev
  | 0 => []
  | b + 1 => lossStepPattern b ++ [Ev.lossCompute b, Ev.optStep b]

/-- Whether an event is a sampling run or a checkpoint save. -/
def isSampleOrCkpt : Ev → Bool
  | Ev.sampleProc => true
  | Ev.saveCheckpoint => true
  | _ => false

/-- Whether an event is a loss computation or a sampling run. -/
def isLossOrSample : Ev → Bool
  | Ev.lossCompute _ => true
  | Ev.sampleProc => true
  | _ => false

/-- The alternation expected of `e` epochs: one sampling run immediately
followed by one checkpoint save, per epoch. -/
def epochPattern : ℕ → List Ev
  | 0 => []
  | e + 1 => epochPattern e ++ [Ev.sampleProc, Ev.saveCheckpoint]

/-- The order expected of `e` epochs over `nB` batches: all per-batch
loss computations of the epoch, then the sampling run. -/
def lossSamplePattern (nB : ℕ) : ℕ → List Ev
  | 0 => []
  | e + 1 =>
      lossSamplePattern nB e ++ (List.range nB).map Ev.lossCompute ++
        [Ev.sampleProc]

/-- The file name of an image-save event, when the event is one. -/
def imageName : Ev → Option String
  | Ev.saveImage _ n _ => some n
  | _ => none

/-! ## Concrete instances used to evaluate the development -/

/-- A reverse schedule with all coefficients `1`. -/
def unitSched : RevSched := ⟨fun _ => 1, fun _ => 1, fun _ => 1⟩

/-- The constant-zero one-element tensor. -/
def zeroT : Fin 1 → ℚ := fun _ => 0

/-- The constant-one one-element tensor. -/
def oneT : Fin 1 → ℚ := fun _ => 1

/-- A small configuration: one diffusion step, two samples. -/
def smallCfg : Configs := { n_steps := 1, n_samples := 2 }

/-! ## Supporting lemmas -/

lemma alpha_pos_of_valid {beta : ℕ → ℚ} {T t : ℕ}
    (hv : ValidBetas beta T) (ht : t < T) : 0 < alpha beta t := by
  have h := hv t ht
  unfold alpha
  linarith [h.2]

lemma alpha_lt_one_of_valid {beta : ℕ → ℚ} {T t : ℕ}
    (hv : ValidBetas beta T) (ht : t < T) : alpha beta t < 1 := by
  have h := hv t ht
  unfold alpha
  linarith [h.1]

lemma alphaBar_pos_of_valid {beta : ℕ → ℚ} {T : ℕ}
    (hv : ValidBetas beta T) :
    ∀ t, t < T → 0 < alphaBar beta t := by
  intro t
  induction t with
  | zero =>
    intro ht
    exact alpha_pos_of_valid hv ht
  | succ s ih =>
    intro ht
    have hs : s < T := Nat.lt_of_succ_lt ht
    have h1 := ih hs
    have h2 := alpha_pos_of_valid hv ht
    show 0 < alphaBar beta s * alpha beta (s + 1)
    positivity

lemma filterMap_some_fun {α β : Type} (f : α → β) (l : List α) :
    l.filterMap (fun a => some (f a)) = l.map f := by
  rw [show (fun a => some (f a)) = some ∘ f from rfl, List.filterMap_eq_map]

lemma filterMap_none_fun {α β : Type} (l : List α) :
    l.filterMap (fun _ => (none : Option β)) = [] := by
  induction l with
  | nil => rfl
  | cons a l ih => simp [ih]

lemma range_reverse_eq (n : ℕ) :
    (List.range n).map (fun t_ => n - t_ - 1) = (List.range n).reverse := by
  conv_rhs => rw [List.range_eq_range', List.reverse_range']
  apply List.map_congr_left
  intro x hx
  rw [List.mem_range] at hx
  omega

lemma mem_sampleEvents_pSampleCall {cfg : Configs} {ts : String}
    {t : ℕ} {tb : List ℕ} {g : Bool}
    (h : Ev.pSampleCall t tb g ∈ sampleEvents cfg ts) :
    tb = List.replicate cfg.n_samples t ∧ g = false := by
  unfold sampleEvents at h
  simp only [List.mem_append, List.mem_cons, List.mem_singleton,
    List.mem_map, List.mem_range, List.not_mem_nil, or_false] at h
  rcases h with ((h | h) | h) | h
  · rcases h with h | h <;> exact absurd h (by simp)
  · obtain ⟨t_, _, he⟩ := h
    obtain ⟨h1, h2, h3⟩ := Ev.pSampleCall.inj he
    subst h1
    exact ⟨h2.symm, h3.symm⟩
  · exact absurd h (by simp)
  · obtain ⟨i, _, he⟩ := h
    exact absurd he (by simp)

lemma mem_sampleEvents_saveImage {cfg : Configs} {ts : String}
    {i : ℕ} {n m : String}
    (h : Ev.saveImage i n m ∈ sampleEvents cfg ts) :
    n = "image_" ++ toString i ++ ".jpg" ∧ m = "RGB" := by
  unfold sampleEvents at h
  simp only [List.mem_append, List.mem_cons, List.mem_singleton,
    List.mem_map, List.mem_range, List.not_mem_nil, or_false] at h
  rcases h with ((h | h) | h) | h
  · rcases h with h | h <;> exact absurd h (by simp)
  · obtain ⟨t_, _, he⟩ := h
    exact absurd he (by simp)
  · exact absurd h (by simp)
  · obtain ⟨j, _, he⟩ := h
    obtain ⟨h1, h2, h3⟩ := Ev.saveImage.inj he
    subst h1
    exact ⟨h2.symm, h3.symm⟩

lemma trainEvents_filter_lossStep (nB : ℕ) :
    (trainEvents nB).filter isLossOrStep = lossStepPattern nB := by
  induction nB with
  | zero => rfl
  | succ n ih =>
    simp only [trainEvents, lossStepPattern, List.filter_append, ih]
    rfl

lemma batch_block_sublist :
    ∀ nB b, b < nB →
      List.Sublist
        [Ev.zeroGrad b, Ev.lossCompute b, Ev.backward b, Ev.optStep b,
         Ev.trackLoss b]
        (trainEvents nB) := by
  intro nB
  induction nB with
  | zero => intro b hb; exact absurd hb (Nat.not_lt_zero b)
  | succ n ih =>
    intro b hb
    simp only [trainEvents]
    rcases Nat.lt_succ_iff_lt_or_eq.mp hb with h | rfl
    · exact (ih b h).trans (List.sublist_append_left _ _)
    · exact (List.Sublist.cons _ (List.Sublist.refl _)).trans
        (List.sublist_append_right _ _)

lemma trainEvents_filter_sampleCkpt (nB : ℕ) :
    (trainEvents nB).filter isSampleOrCkpt = [] := by
  induction nB with
  | zero => rfl
  | succ n ih =>
    simp only [trainEvents, List.filter_append, ih]
    rfl

lemma trainEvents_filter_lossSample (nB : ℕ) :
    (trainEvents nB).filter isLossOrSample =
      (List.range nB).map Ev.lossCompute := by
  induction nB with
  | zero => rfl
  | succ n ih =>
    simp only [trainEvents, List.filter_append, ih, List.range_succ,
      List.map_append]
    rfl

lemma trainEvents_count_sampleProc (nB : ℕ) :
    (trainEvents nB).count Ev.sampleProc = 0 := by
  rw [List.count_eq_zero]
  intro hmem
  induction nB with
  | zero => exact List.not_mem_nil _ hmem
  | succ n ih =>
    simp only [trainEvents, List.mem_append] at hmem
    rcases hmem with h | h
    · exact ih h
    · simp at h

lemma trainEvents_count_saveCheckpoint (nB : ℕ) :
    (trainEvents nB).count Ev.saveCheckpoint = 0 := by
  rw [List.count_eq_zero]
  intro hmem
  induction nB with
  | zero => exact List.not_mem_nil _ hmem
  | succ n ih =>
    simp only [trainEvents, List.mem_append] at hmem
    rcases hmem with h | h
    · exact ih h
    · simp at h

lemma ratTrunc_eq_floor {q : ℚ} (hq : 0 ≤ q) : ratTrunc q = ⌊q⌋ := by
  unfold ratTrunc
  rw [Rat.floor_def]
  exact Int.tdiv_eq_ediv (Rat.num_nonneg.mpr hq) (Int.natCast_nonneg _)

/-! ## Claim theorems -/

/-- Claim C1: one `sample()` invocation makes exactly `n_steps`
reverse-step calls, visiting the timesteps `n_steps-1, …, 1, 0` strictly
descending with no repeats and no skips, and the reverse loop is exactly
the fold of the step over these timesteps, reassigning `x` each step. -/
theorem sample_traverses_all_timesteps (cfg : Configs) (ts : String) :
    pSampleTimesteps cfg ts = (List.range cfg.n_steps).reverse ∧
    (pSampleTimesteps cfg ts).length = cfg.n_steps ∧
    ∀ (α : Type) (step : α → ℕ → α) (xT : α),
      sampleLoop step cfg.n_steps xT =
        ((List.range cfg.n_steps).reverse).foldl step xT := by
  have key : pSampleTimesteps cfg ts = (List.range cfg.n_steps).reverse := by
    unfold pSampleTimesteps sampleEvents
    rw [← range_reverse_eq]
    simp only [List.filterMap_append, List.filterMap_map, Function.comp_def,
      pSampleT, filterMap_some_fun, filterMap_none_fun]
    simp [pSampleT]
  refine ⟨key, ?_, ?_⟩
  · rw [key]
    simp
  · intro α step xT
    unfold sampleLoop
    rw [← range_reverse_eq, List.foldl_map]

/-- Claim C2: the reverse step at `t = 0` is deterministic — it does not
depend on the noise draw — whereas for `t > 0` (with the nonzero
posterior standard deviation the schedule provides) two different noise
draws give two different results. -/
theorem p_sample_det_t0_stoch_tpos {ι : Type} (s : RevSched)
    (x epsHat z z' : ι → ℚ) (t : ℕ) (i : ι)
    (ht : 0 < t) (hσ : s.sigma t ≠ 0) (hz : z i ≠ z' i) :
    p_sample s x epsHat 0 z = p_sample s x epsHat 0 z' ∧
    p_sample s x epsHat t z ≠ p_sample s x epsHat t z' := by
  constructor
  · simp [p_sample]
  · intro h
    have h2 : posteriorMean s x epsHat t i + s.sigma t * z i =
        posteriorMean s x epsHat t i + s.sigma t * z' i := by
      have hfi := congrFun h i
      simpa [p_sample, ht] using hfi
    have h3 : s.sigma t * z i = s.sigma t * z' i := by linarith
    exact hz (mul_left_cancel₀ hσ h3)

/-- Witness for `p_sample_det_t0_stoch_tpos` at the unit schedule on
one-element tensors, with draws `0` and `1` at timestep `1`. -/
theorem p_sample_det_t0_stoch_tpos_witness :
    0 < 1 ∧ unitSched.sigma 1 ≠ 0 ∧ zeroT 0 ≠ oneT 0 ∧
    (p_sample unitSched zeroT zeroT 0 zeroT =
        p_sample unitSched zeroT zeroT 0 oneT ∧
      p_sample unitSched zeroT zeroT 1 zeroT ≠
        p_sample unitSched zeroT zeroT 1 oneT) :=
  ⟨Nat.one_pos, by decide, by decide,
   p_sample_det_t0_stoch_tpos unitSched zeroT zeroT zeroT oneT 1 0
     Nat.one_pos (by decide) (by decide)⟩

/-- Claim C3: the training loss — corrupt each sample with its drawn
noise at its drawn timestep, run the predictor, take the mean squared
error between the injected noise and the prediction — is a single scalar
and is non-negative, for every batch, draw and predictor. -/
theorem loss_nonneg {B ι : Type} [Fintype B] [Fintype ι] (s : FwdSched)
    (x0 : B → ι → ℚ) (ts : B → ℕ) (eps : B → ι → ℚ)
    (pred : (B → ι → ℚ) → (B → ℕ) → (B → ι → ℚ)) :
    0 ≤ loss s x0 ts eps pred := by
  unfold loss mse
  apply div_nonneg
  · exact Finset.sum_nonneg fun i _ => sq_nonneg _
  · exact_mod_cast Nat.zero_le _

/-- Claim C4: for every schedule built from variance values
`β_t ∈ (0,1)`, the cumulative products are strictly decreasing:
`ᾱ_t < ᾱ_{t-1}` for all `t` with `1 ≤ t < T`. -/
theorem alphaBar_strictAnti (beta : ℕ → ℚ) (T t : ℕ)
    (hv : ValidBetas beta T) (h1 : 1 ≤ t) (h2 : t < T) :
    alphaBar beta t < alphaBar beta (t - 1) := by
  obtain ⟨s, rfl⟩ : ∃ s, t = s + 1 := ⟨t - 1, by omega⟩
  have hs : s < T := by omega
  have hpos := alphaBar_pos_of_valid hv s hs
  have hlt := alpha_lt_one_of_valid hv h2
  have heq : alphaBar beta (s + 1) = alphaBar beta s * alpha beta (s + 1) :=
    rfl
  rw [heq, Nat.add_sub_cancel]
  exact mul_lt_of_lt_one_right hpos hlt

/-- Witness for `alphaBar_strictAnti` at the constant schedule
`β ≡ 1/2`, `T = 3`, `t = 1`. -/
theorem alphaBar_strictAnti_witness :
    ValidBetas (fun _ => (1 : ℚ) / 2) 3 ∧ 1 ≤ 1 ∧ 1 < 3 ∧
    alphaBar (fun _ => (1 : ℚ) / 2) 1 < alphaBar (fun _ => (1 : ℚ) / 2) 0 :=
  ⟨fun t ht => by norm_num, le_refl 1, by norm_num,
   alphaBar_strictAnti (fun _ => (1 : ℚ) / 2) 3 1 (fun t ht => by norm_num)
     (le_refl 1) (by norm_num)⟩

/-- Claim C5: every reverse-step call made during sampling receives a
timestep batch of `n_samples` entries all equal to the current scalar
timestep. -/
theorem sample_timestep_batch_broadcast (cfg : Configs) (ts : String)
    (t : ℕ) (tb : List ℕ) (g : Bool)
    (h : Ev.pSampleCall t tb g ∈ sampleEvents cfg ts) :
    tb = List.replicate cfg.n_samples t :=
  (mem_sampleEvents_pSampleCall h).1

/-- Witness for `sample_timestep_batch_broadcast` on the one-step
two-sample configuration. -/
theorem sample_timestep_batch_broadcast_witness :
    Ev.pSampleCall 0 (List.replicate 2 0) false ∈ sampleEvents smallCfg "x" ∧
    List.replicate 2 0 = List.replicate smallCfg.n_samples 0 :=
  ⟨by decide,
   sample_timestep_batch_broadcast smallCfg "x" 0 (List.replicate 2 0) false
     (by decide)⟩

/-- Claim C6: sampling draws `x_T` standard normal of shape
`(n_samples, image_channels, image_size, image_size)`, and both the draw
and every reverse-step call run without gradient tracking. -/
theorem sample_init_shape_no_grad (cfg : Configs) (ts : String)
    (t : ℕ) (tb : List ℕ) (g : Bool)
    (h : Ev.pSampleCall t tb g ∈ sampleEvents cfg ts) :
    Ev.randn [cfg.n_samples, cfg.image_channels, cfg.image_size,
        cfg.image_size] false ∈ sampleEvents cfg ts ∧
    g = false := by
  refine ⟨?_, (mem_sampleEvents_pSampleCall h).2⟩
  unfold sampleEvents
  simp

/-- Witness for `sample_init_shape_no_grad` on the one-step two-sample
configuration. -/
theorem sample_init_shape_no_grad_witness :
    Ev.pSampleCall 0 (List.replicate 2 0) false ∈ sampleEvents smallCfg "x" ∧
    (Ev.randn [smallCfg.n_samples, smallCfg.image_channels,
        smallCfg.image_size, smallCfg.image_size] false
        ∈ sampleEvents smallCfg "x" ∧
      false = false) :=
  ⟨by decide,
   sample_init_shape_no_grad smallCfg "x" 0 (List.replicate 2 0) false
     (by decide)⟩

/-- Claim C7: within an epoch each batch runs zero-grad, loss, backward,
one optimizer step, then loss recording, as a subsequence in that strict
order, and the projection of the whole epoch trace to loss/step events
is the strict alternation loss, step, loss, step, … — one loss and one
step per batch, never interleaved. -/
theorem train_batch_order_alternation (nB b : ℕ) (hb : b < nB) :
    (trainEvents nB).filter isLossOrStep = lossStepPattern nB ∧
    List.Sublist
      [Ev.zeroGrad b, Ev.lossCompute b, Ev.backward b, Ev.optStep b,
       Ev.trackLoss b]
      (trainEvents nB) :=
  ⟨trainEvents_filter_lossStep nB, batch_block_sublist nB b hb⟩

/-- Witness for `train_batch_order_alternation` with one batch. -/
theorem train_batch_order_alternation_witness :
    0 < 1 ∧
    ((trainEvents 1).filter isLossOrStep = lossStepPattern 1 ∧
      List.Sublist
        [Ev.zeroGrad 0, Ev.lossCompute 0, Ev.backward 0, Ev.optStep 0,
         Ev.trackLoss 0]
        (trainEvents 1)) :=
  ⟨Nat.one_pos, train_batch_order_alternation 1 0 Nat.one_pos⟩

/-- Claim C8: over `e` epochs the run trace projects to the strict
alternation sample, checkpoint, sample, checkpoint, … (one sampling run
then one checkpoint save per epoch, the checkpoint after the sampling),
all the batch loss computations of an epoch precede that epoch's
sampling run, and there are exactly `e` sampling runs and `e` checkpoint
saves. -/
theorem run_epoch_order (e nB : ℕ) :
    (runEvents nB e).filter isSampleOrCkpt = epochPattern e ∧
    (runEvents nB e).filter isLossOrSample = lossSamplePattern nB e ∧
    (runEvents nB e).count Ev.sampleProc = e ∧
    (runEvents nB e).count Ev.saveCheckpoint = e := by
  refine ⟨?_, ?_, ?_, ?_⟩
  · induction e with
    | zero => rfl
    | succ n ih =>
      simp [runEvents, epochPattern, List.filter_append, ih,
        trainEvents_filter_sampleCkpt, isSampleOrCkpt]
  · induction e with
    | zero => rfl
    | succ n ih =>
      simp [runEvents, lossSamplePattern, List.filter_append, ih,
        trainEvents_filter_lossSample, isLossOrSample]
  · induction e with
    | zero => rfl
    | succ n ih =>
      simp [runEvents, List.count_append, ih,
        trainEvents_count_sampleProc, List.count_cons]
  · induction e with
    | zero => rfl
    | succ n ih =>
      simp [runEvents, List.count_append, ih,
        trainEvents_count_saveCheckpoint, List.count_cons]

/-- Claim C9: the `Configs` class hardcodes `epochs = 10`, `main` passes
the override dictionary with `epochs = 100`, and the effective epoch
count of the run is the orchestration-layer value `100`, silently
overriding the class default. -/
theorem epochs_override_effective :
    ({} : Configs).epochs = 10 ∧ mainConfigs.epochs = 100 ∧
    mainConfigs.epochs ≠ ({} : Configs).epochs := by
  refine ⟨rfl, ?_, ?_⟩ <;> decide

/-- Claim C10: after the reverse loop, each pixel `v` is mapped to
`(v + 1) · 127.5`, truncated toward zero and cast to an unsigned byte.
Inputs in `[-1, 1]` land in `[0, 255]` with no wrapping, while values
outside that range wrap modulo 256 rather than saturate (at `v = 3/2`
the cast gives `62`, not `255`); the saved files are RGB images named
`image_0 … image_{n_samples-1}` (exactly `n_samples` of them), written
after creating the timestamped directory. -/
theorem sample_postprocess (cfg : Configs) (ts : String) (v : ℚ)
    (i : ℕ) (n m : String)
    (h1 : -1 ≤ v) (h2 : v ≤ 1)
    (hm : Ev.saveImage i n m ∈ sampleEvents cfg ts) :
    toByte v = ratTrunc ((v + 1) * (255 / 2)) ∧
    0 ≤ toByte v ∧ toByte v ≤ 255 ∧
    toByte (3 / 2) = 62 ∧
    m = "RGB" ∧
    (sampleEvents cfg ts).filterMap imageName =
      (List.range cfg.n_samples).map
        (fun j => "image_" ++ toString j ++ ".jpg") ∧
    (sampleEvents cfg ts).head? =
      some (Ev.mkdir ("./mnt/data/images_" ++ ts ++ "/")) := by
  have hw0 : (0 : ℚ) ≤ (v + 1) * (255 / 2) := by nlinarith
  have hw255 : (v + 1) * (255 / 2) ≤ 255 := by nlinarith
  have htr : ratTrunc ((v + 1) * (255 / 2)) = ⌊(v + 1) * (255 / 2)⌋ :=
    ratTrunc_eq_floor hw0
  have hfl0 : 0 ≤ ⌊(v + 1) * (255 / 2)⌋ := Int.floor_nonneg.mpr hw0
  have hfl255 : ⌊(v + 1) * (255 / 2)⌋ ≤ 255 := by
    have := Int.floor_le_floor (α := ℚ) hw255
    simpa using this
  have hmain : toByte v = ratTrunc ((v + 1) * (255 / 2)) := by
    unfold toByte
    rw [htr]
    exact Int.emod_eq_of_lt hfl0 (by omega)
  have hwrap : toByte (3 / 2) = 62 := by
    have h32 : ((3 : ℚ) / 2 + 1) * (255 / 2) = 1275 / 4 := by norm_num
    have h0 : (0 : ℚ) ≤ (3 / 2 + 1) * (255 / 2) := by norm_num
    unfold toByte
    rw [ratTrunc_eq_floor h0, h32]
    have hfl : ⌊(1275 / 4 : ℚ)⌋ = 318 := by norm_num [Int.floor_eq_iff]
    rw [hfl]
    decide
  refine ⟨hmain, ?_, ?_, hwrap, (mem_sampleEvents_saveImage hm).2, ?_, rfl⟩
  · rw [hmain, htr]; exact hfl0
  · rw [hmain, htr]; exact hfl255
  · unfold sampleEvents
    simp only [List.filterMap_append, List.filterMap_map, Function.comp_def,
      imageName, filterMap_some_fun, filterMap_none_fun]
    simp [imageName]

/-- Witness for `sample_postprocess` at `v = 0` on the one-step
two-sample configuration. -/
theorem sample_postprocess_witness :
    (-1 ≤ (0 : ℚ)) ∧ ((0 : ℚ) ≤ 1) ∧
    Ev.saveImage 0 "image_0.jpg" "RGB" ∈ sampleEvents smallCfg "x" ∧
    (toByte 0 = ratTrunc ((0 + 1) * (255 / 2)) ∧
      0 ≤ toByte 0 ∧ toByte 0 ≤ 255 ∧
      toByte (3 / 2) = 62 ∧
      ("RGB" : String) = "RGB" ∧
      (sampleEvents smallCfg "x").filterMap imageName =
        (List.range smallCfg.n_samples).map
          (fun j => "image_" ++ toString j ++ ".jpg") ∧
      (sampleEvents smallCfg "x").head? =
        some (Ev.mkdir ("./mnt/data/images_" ++ "x" ++ "/"))) :=
  ⟨by norm_num, by norm_num, by decide,
   sample_postprocess smallCfg "x" 0 0 "image_0.jpg" "RGB" (by norm_num)
     (by norm_num) (by decide)⟩

end DDPM
